import Mathlib

/-!
Verification of the TOON table codec (toon-macro / toon-macro-derive).

The development shallowly embeds:
* the structured value type consumed by the codec (`Number`, `Value`) and the
  map helpers from `toon-macro/src/internal.rs`;
* the unified error type from `toon-macro/src/error.rs`;
* the table helpers and the cell conversion protocol from
  `toon-macro/src/table.rs` (`extract_columns`, `extract_rows`, `get_cell`,
  the `FromToonValue` and `IntoToonValue` impls);
* the code generated by `#[derive(ToonTable)]`
  (`toon-macro-derive/src/table_derive.rs`), made generic over the list of
  resolved field descriptors, so that one Lean function captures the generated
  `to_toon_table` / `from_toon_table` of every derived record type.

Record types are represented by a schema (`List FieldInfo`, the `field_infos`
of the derive after sorting) and records by lists of typed field values
aligned with the schema.
-/

namespace Toon

/-- Modelled from the spec: the external structured-value collaborator
(`serde_toon2::Number`) stores a number as a signed 64-bit integer, an
unsigned 64-bit integer, or a double; the variant shape is visible in the
repository (`Number::I64`, `Number::U64`, `Number::F64` constructors in
`internal.rs` and `value.rs`).  Machine integers are modelled as `Int`/`Nat`;
the 64-bit range restrictions appear as explicit bounds where they matter. -/
inductive Number where
  | i64 (i : Int)
  | u64 (n : Nat)
  | f64 (f : Float)

/-- The structured value union consumed by the codec: null, bool, number,
string, array, object (spec section 2; re-exported by `value.rs`).  An object
is an ordered key-value association. -/
inductive Value where
  | null
  | bool (b : Bool)
  | number (n : Number)
  | str (s : String)
  | array (items : List Value)
  | object (entries : List (String × Value))

/-- The largest value of a signed 64-bit integer. -/
def i64Max : Int := 2 ^ 63 - 1

/-- The smallest value of a signed 64-bit integer. -/
def i64Min : Int := -(2 ^ 63)

/-- The largest value of an unsigned 64-bit integer. -/
def u64Max : Nat := 2 ^ 64 - 1

/-- Modelled from the spec: the collaborator's numeric accessor `as_i64`
("numeric accessors that attempt conversion to i64/u64/f64 with
success/failure reporting"; integer reads succeed exactly when the stored
representation is exactly convertible to the target signed width). -/
def Number.as_i64 : Number → Option Int
  | .i64 i => some i
  | .u64 n => if (n : Int) ≤ i64Max then some (n : Int) else none
  | .f64 _ => none

/-- Modelled from the spec: the collaborator's numeric accessor `as_u64`. -/
def Number.as_u64 : Number → Option Nat
  | .i64 i => if 0 ≤ i then some i.toNat else none
  | .u64 n => some n
  | .f64 _ => none

/-- Modelled from the spec: the collaborator's numeric accessor `as_f64`;
every stored representation widens to a double (table.rs uses it infallibly). -/
def Number.as_f64 : Number → Float
  | .i64 i => Float.ofInt i
  | .u64 n => n.toFloat
  | .f64 f => f

/-- An object's entry list (`serde_toon2::Map<String, Value>`), modelled as an
ordered association list with overwrite-on-insert and key lookup. -/
abbrev ValueMap := List (String × Value)

/-- Embeds `internal::new_map`: the empty map. -/
def new_map : ValueMap := []

/-- Modelled from the spec: the collaborator map's named-entry lookup
(`map.get(key)`), returning the entry stored under the key. -/
def mapGet : ValueMap → String → Option Value
  | [], _ => none
  | (k, v) :: rest, key => if k = key then some v else mapGet rest key

/-- Embeds `internal::map_insert` (`map.insert(key, value)`): overwrite the
existing entry for the key, or append a new entry. -/
def map_insert (m : ValueMap) (key : String) (v : Value) : ValueMap :=
  match m with
  | [] => [(key, v)]
  | (k, w) :: rest =>
    if k = key then (k, v) :: rest else (k, w) :: map_insert rest key v

/-- Embeds the unified error enum of `error.rs`.  The source's
`InvalidType.got` field holds `format!("{:?}", value)`, a rendering of the
offending value; the model carries the offending value itself. -/
inductive Error where
  | serializeError (msg : String)
  | deserializeError (msg : String)
  | invalidTable (msg : String)
  | missingColumn (name : String)
  | conversionError (msg : String)
  | invalidType (expected : String) (got : Value)
  | rowOutOfBounds (index : Nat) (len : Nat)
  | columnOutOfBounds (index : Nat) (len : Nat)

/-- Embeds the string-collection step of `extract_columns`: every element of
the `columns` array must be a string (first failure wins, as with `collect`
over `Result`). -/
def collectColumnNames : List Value → Except Error (List String)
  | [] => .ok []
  | .str s :: rest => do
    let names ← collectColumnNames rest
    .ok (s :: names)
  | _ :: _ => .error (.invalidTable "column names must be strings")

/-- Embeds `table::extract_columns` (table.rs lines 150-170). -/
def extract_columns (value : Value) : Except Error (List String) :=
  match value with
  | .object map =>
    match mapGet map "columns" with
    | none => .error (.invalidTable "missing 'columns' field")
    | some (.array arr) => collectColumnNames arr
    | some _ => .error (.invalidTable "'columns' must be an array")
  | _ => .error (.invalidTable "table must be an object")

/-- Embeds `table::extract_rows` (table.rs lines 173-187). -/
def extract_rows (value : Value) : Except Error (List Value) :=
  match value with
  | .object map =>
    match mapGet map "rows" with
    | none => .error (.invalidTable "missing 'rows' field")
    | some (.array arr) => .ok arr
    | some _ => .error (.invalidTable "'rows' must be an array")
  | _ => .error (.invalidTable "table must be an object")

/-- Embeds `table::get_cell` (table.rs lines 190-199). -/
def get_cell (row : Value) (index : Nat) : Except Error Value :=
  match row with
  | .array arr =>
    match arr.get? index with
    | some v => .ok v
    | none => .error (.columnOutOfBounds index arr.length)
  | _ => .error (.invalidTable "row must be an array")

/-- The scalar cell types of the cell conversion protocol: string, i64, u64,
f64, bool (the `FromToonValue` / `IntoToonValue` impls of table.rs). -/
inductive BTy where
  | str
  | i64
  | u64
  | f64
  | bool
deriving DecidableEq

/-- A field type participating in the protocol: a scalar, or an optional
scalar (the `Option<T>` impls of table.rs instantiated at a scalar). -/
inductive FTy where
  | base (b : BTy)
  | opt (b : BTy)
deriving DecidableEq

/-- A scalar field value.  An i64 field carries an `Int`, a u64 field a
`Nat`; the 64-bit bounds are imposed by `hasBTy`. -/
inductive BVal where
  | str (s : String)
  | int (i : Int)
  | uint (n : Nat)
  | float (f : Float)
  | bool (b : Bool)

/-- A field value: a scalar, or an optional scalar (`None` / `Some`). -/
inductive FVal where
  | base (v : BVal)
  | noneV
  | someV (v : BVal)

/-- A scalar value inhabits a scalar type; machine-integer payloads must fit
the 64-bit range of the Rust field type. -/
def hasBTy : BVal → BTy → Bool
  | .str _, .str => true
  | .int i, .i64 => decide (i64Min ≤ i ∧ i ≤ i64Max)
  | .uint n, .u64 => decide (n ≤ u64Max)
  | .float _, .f64 => true
  | .bool _, .bool => true
  | _, _ => false

/-- A field value inhabits a field type. -/
def hasFTy : FVal → FTy → Bool
  | .base v, .base b => hasBTy v b
  | .noneV, .opt _ => true
  | .someV v, .opt b => hasBTy v b
  | _, _ => false

/-- Embeds the scalar `FromToonValue` impls of table.rs (lines 207-255):
`String` accepts String or Null (Null reads as the empty string), the
integer impls require a Number exactly convertible via `as_i64` / `as_u64`,
`f64` accepts any Number, `bool` requires a Bool. -/
def fromBase (t : BTy) (value : Value) : Except Error BVal :=
  match t with
  | .str =>
    match value with
    | .str s => .ok (.str s)
    | .null => .ok (.str "")
    | v => .error (.invalidType "string" v)
  | .i64 =>
    match value with
    | .number n =>
      match n.as_i64 with
      | some i => .ok (.int i)
      | none => .error (.conversionError "number is not an i64")
    | v => .error (.invalidType "i64" v)
  | .u64 =>
    match value with
    | .number n =>
      match n.as_u64 with
      | some m => .ok (.uint m)
      | none => .error (.conversionError "number is not a u64")
    | v => .error (.invalidType "u64" v)
  | .f64 =>
    match value with
    | .number n => .ok (.float n.as_f64)
    | v => .error (.invalidType "f64" v)
  | .bool =>
    match value with
    | .bool b => .ok (.bool b)
    | v => .error (.invalidType "bool" v)

/-- Embeds `FromToonValue::from_toon_value` at a field type, including the
`Option<T>` impl (table.rs lines 257-264): Null reads as `None`, anything
else delegates to the scalar impl and wraps `Some`. -/
def from_toon_value (t : FTy) (value : Value) : Except Error FVal :=
  match t with
  | .base b => (fromBase b value).map FVal.base
  | .opt b =>
    match value with
    | .null => .ok .noneV
    | v => (fromBase b v).map FVal.someV

/-- Embeds the scalar `IntoToonValue` impls of table.rs (lines 272-318). -/
def baseToValue : BVal → Value
  | .str s => .str s
  | .int i => .number (.i64 i)
  | .uint n => .number (.u64 n)
  | .float f => .number (.f64 f)
  | .bool b => .bool b

/-- Embeds `IntoToonValue::to_toon_value` at a field value, including the
`Option<T>` impl (table.rs lines 320-327): `None` writes Null, `Some`
delegates to the scalar impl. -/
def to_toon_value : FVal → Value
  | .base v => baseToValue v
  | .noneV => .null
  | .someV v => baseToValue v

/-- The `Default::default()` value of a scalar field type. -/
def defaultBVal : BTy → BVal
  | .str => .str ""
  | .i64 => .int 0
  | .u64 => .uint 0
  | .f64 => .float 0.0
  | .bool => .bool false

/-- The `Default::default()` value of a field type (`None` for options). -/
def defaultFVal : FTy → FVal
  | .base b => .base (defaultBVal b)
  | .opt _ => .noneV

/-- Embeds the parsed per-field configuration `FieldAttrs` of
`toon-macro-derive/src/utils.rs`. -/
structure FieldAttrs where
  rename : Option String
  skip : Bool
  default : Bool
  order : Option Nat
deriving DecidableEq

/-- Embeds the resolved per-field descriptor `FieldInfo` of
`table_derive.rs` (lines 188-195), with the field's Rust type abstracted to
its cell conversion protocol type. -/
structure FieldInfo where
  name : String
  ty : FTy
  column_name : String
  default : Bool
  order : Option Nat
deriving DecidableEq

/-- Embeds the field-collection loop of `derive_toon_table_impl`
(table_derive.rs lines 44-66): skipped fields are dropped, the column name
is the rename value when present, else the field name; declaration order is
preserved. -/
def mkFieldInfos (fields : List (String × FTy × FieldAttrs)) : List FieldInfo :=
  fields.filterMap fun f =>
    let (fname, fty, attrs) := f
    if attrs.skip then none
    else
      some { name := fname, ty := fty,
             column_name := attrs.rename.getD fname,
             default := attrs.default, order := attrs.order }

/-- Embeds the comparator passed to `field_infos.sort_by`
(table_derive.rs lines 69-74). -/
def fieldCmp (a b : FieldInfo) : Ordering :=
  match a.order, b.order with
  | some x, some y => compare x y
  | some _, none => .lt
  | none, some _ => .gt
  | none, none => .eq

/-- The comparator as a total preorder: `a` may precede `b`. -/
def fieldLe (a b : FieldInfo) : Bool := !(fieldCmp a b == Ordering.gt)

/-- Stable insertion into a sorted descriptor list: the new element goes in
front of the first existing element it may precede. -/
def insertField (a : FieldInfo) : List FieldInfo → List FieldInfo
  | [] => [a]
  | b :: rest => if fieldLe a b then a :: b :: rest else b :: insertField a rest

/-- Embeds `field_infos.sort_by(comparator)`.  Rust's `slice::sort_by` is a
stable sort, and a stable sort's output is uniquely determined by the
comparator and the input order, so it is embedded as the stable insertion
sort over `fieldLe`. -/
def sortFieldInfos : List FieldInfo → List FieldInfo
  | [] => []
  | a :: rest => insertField a (sortFieldInfos rest)

/-- The full schema resolution of `derive_toon_table_impl`: collect the
non-skipped fields in declaration order, then stable-sort them by the
explicit-order comparator. -/
def resolveSchema (fields : List (String × FTy × FieldAttrs)) : List FieldInfo :=
  sortFieldInfos (mkFieldInfos fields)

/-- A schema: the sorted `field_infos` the derive generates code from. -/
abbrev Schema := List FieldInfo

/-- A record of a derived type: its field values in schema order. -/
abbrev Record := List FVal

/-- The generated `COLUMNS` constant: the schema's column names in order. -/
def schemaColumns (S : Schema) : List String := S.map (·.column_name)

/-- Embeds the generated `to_toon_table` (table_derive.rs lines 128-156):
`columns` is the schema's column names as strings, each record becomes one
array of cells in schema order, and both are inserted into a fresh map. -/
def to_toon_table (S : Schema) (rows : List Record) : Value :=
  let columns : List Value := (schemaColumns S).map Value.str
  let data_rows : List Value := rows.map fun r => Value.array (r.map to_toon_value)
  Value.object
    (map_insert (map_insert new_map "columns" (Value.array columns))
      "rows" (Value.array data_rows))

/-- One step of the generated column-map construction: a `HashMap` is a
lookup function, and `insert` overwrites the entry for the key. -/
def insertCol (m : String → Option Nat) (col : String) (idx : Nat) :
    String → Option Nat :=
  fun k => if k = col then some idx else m k

/-- The generated column-map loop body over the enumerated column list. -/
def buildColumnMapAux (m : String → Option Nat) :
    List (Nat × String) → (String → Option Nat)
  | [] => m
  | (idx, col) :: rest => buildColumnMapAux (insertCol m col idx) rest

/-- Embeds the generated name-to-index lookup construction
(table_derive.rs lines 163-166): insert `(column, index)` for each column in
array order, later inserts overwriting earlier ones. -/
def buildColumnMap (columns : List String) : String → Option Nat :=
  buildColumnMapAux (fun _ => none) columns.enum

/-- Embeds one generated field initializer of `from_toon_table`
(table_derive.rs lines 92-122): resolve the column name in the lookup; when
found, fetch the cell at the resolved index and convert it; when absent,
yield the field type's default if the default flag is set, else fail with
`MissingColumn`. -/
def decodeField (column_map : String → Option Nat) (row : Value)
    (f : FieldInfo) : Except Error FVal :=
  if f.default then
    match column_map f.column_name with
    | some idx => do
      let cell ← get_cell row idx
      from_toon_value f.ty cell
    | none => .ok (defaultFVal f.ty)
  else
    match column_map f.column_name with
    | some idx => do
      let cell ← get_cell row idx
      from_toon_value f.ty cell
    | none => .error (.missingColumn f.column_name)

/-- Embeds the generated struct literal for one row: field initializers run
in schema order and the first failure aborts. -/
def decodeRowFields (S : Schema) (column_map : String → Option Nat)
    (row : Value) : Except Error Record :=
  match S with
  | [] => .ok []
  | f :: rest => do
    let v ← decodeField column_map row f
    let vs ← decodeRowFields rest column_map row
    .ok (v :: vs)

/-- Embeds the generated row loop of `from_toon_table` (table_derive.rs
lines 172-177): decode each row in order, first failure aborts. -/
def decodeRows (S : Schema) (column_map : String → Option Nat) :
    List Value → Except Error (List Record)
  | [] => .ok []
  | row :: rest => do
    let item ← decodeRowFields S column_map row
    let items ← decodeRows S column_map rest
    .ok (item :: items)

/-- Embeds the generated `from_toon_table` (table_derive.rs lines 158-180):
extract and validate `columns`, build the name-to-index lookup, extract
`rows`, then decode every row against the schema. -/
def from_toon_table (S : Schema) (value : Value) : Except Error (List Record) := do
  let columns ← extract_columns value
  let column_map := buildColumnMap columns
  let rows ← extract_rows value
  decodeRows S column_map rows

/-- Embeds `ToonTable::get_row` (table.rs lines 98-104): fully decode, then
select the row at the index, failing with `RowOutOfBounds` past the end. -/
def get_row (S : Schema) (value : Value) (index : Nat) : Except Error Record := do
  let rows ← from_toon_table S value
  match rows.get? index with
  | some r => .ok r
  | none => .error (.rowOutOfBounds index rows.length)

/-- A record is well typed against a schema: one value per descriptor, each
inhabiting its descriptor's field type. -/
def wellTypedRecord (S : Schema) (r : Record) : Bool :=
  S.length = r.length && (S.zip r).all fun p => hasFTy p.2 p.1.ty

/-! Helper lemmas about the encoder's output shape. -/

theorem collectColumnNames_map_str (names : List String) :
    collectColumnNames (names.map Value.str) = .ok names := by
  induction names with
  | nil => rfl
  | cons n rest ih => simp [collectColumnNames, ih, Bind.bind, Except.bind]

theorem to_toon_table_eq (S : Schema) (rows : List Record) :
    to_toon_table S rows =
      Value.object
        [("columns", Value.array ((schemaColumns S).map Value.str)),
         ("rows", Value.array (rows.map fun r => Value.array (r.map to_toon_value)))] :=
  rfl

theorem extract_columns_encode (S : Schema) (rows : List Record) :
    extract_columns (to_toon_table S rows) = .ok (schemaColumns S) := by
  rw [to_toon_table_eq]
  show collectColumnNames ((schemaColumns S).map Value.str) = _
  exact collectColumnNames_map_str _

theorem extract_rows_encode (S : Schema) (rows : List Record) :
    extract_rows (to_toon_table S rows) =
      .ok (rows.map fun r => Value.array (r.map to_toon_value)) :=
  rfl

/-! Helper lemmas about the cell conversion protocol. -/

theorem baseToValue_ne_null (v : BVal) : baseToValue v ≠ Value.null := by
  cases v <;> simp [baseToValue]

theorem fromBase_baseToValue (b : BTy) (v : BVal) (h : hasBTy v b = true) :
    fromBase b (baseToValue v) = .ok v := by
  cases v <;> cases b <;> simp_all [hasBTy, baseToValue, fromBase, Number.as_i64,
    Number.as_u64, Number.as_f64]

theorem from_to_value (t : FTy) (v : FVal) (h : hasFTy v t = true) :
    from_toon_value t (to_toon_value v) = .ok v := by
  cases v with
  | base w =>
    cases t with
    | base b =>
      simp only [hasFTy] at h
      simp [to_toon_value, from_toon_value, fromBase_baseToValue b w h, Except.map]
    | opt b => simp [hasFTy] at h
  | noneV =>
    cases t with
    | base b => simp [hasFTy] at h
    | opt b => rfl
  | someV w =>
    cases t with
    | base b => simp [hasFTy] at h
    | opt b =>
      simp only [hasFTy] at h
      have hne := baseToValue_ne_null w
      simp only [to_toon_value, from_toon_value]
      cases hv : baseToValue w with
      | null => exact absurd hv hne
      | _ => rw [← hv]; simp [fromBase_baseToValue b w h, Except.map]

/-! Helper lemmas about the generated column lookup. -/

theorem buildColumnMapAux_append (m : String → Option Nat)
    (ps qs : List (Nat × String)) :
    buildColumnMapAux m (ps ++ qs) = buildColumnMapAux (buildColumnMapAux m ps) qs := by
  induction ps generalizing m with
  | nil => rfl
  | cons p rest ih => cases p; simp [buildColumnMapAux, ih]

theorem buildColumnMap_snoc (cs : List String) (c : String) (k : String) :
    buildColumnMap (cs ++ [c]) k =
      if k = c then some cs.length else buildColumnMap cs k := by
  unfold buildColumnMap
  rw [List.enum_append, buildColumnMapAux_append]
  simp [buildColumnMapAux, insertCol, List.enumFrom]

theorem buildColumnMap_not_mem (cs : List String) (k : String) (h : k ∉ cs) :
    buildColumnMap cs k = none := by
  induction cs using List.reverseRecOn with
  | nil => rfl
  | append_singleton cs c ih =>
    rw [buildColumnMap_snoc]
    rw [List.mem_append] at h
    push_neg at h
    have hkc : k ≠ c := by
      intro hk
      exact h.2 (by simp [hk])
    rw [if_neg hkc]
    exact ih h.1

theorem buildColumnMap_last (cs : List String) (nm : String) (j : Nat)
    (hj : cs.get? j = some nm) (hlast : ∀ k, j < k → cs.get? k ≠ some nm) :
    buildColumnMap cs nm = some j := by
  induction cs using List.reverseRecOn with
  | nil => simp at hj
  | append_singleton cs c ih =>
    rw [buildColumnMap_snoc]
    have hjlt : j < cs.length + 1 := by
      have := List.get?_eq_some.mp hj
      simpa using this.1
    by_cases hnc : nm = c
    · subst hnc
      have hje : j = cs.length := by
        by_contra hne
        have hjlt' : j < cs.length := by omega
        exact hlast cs.length hjlt' (by simp [List.get?_append_right, List.get?])
      simp [hje]
    · rw [if_neg hnc]
      have hjcs : j < cs.length := by
        by_contra hge
        have hje : j = cs.length := by omega
        subst hje
        rw [List.get?_append_right (Nat.le_refl _)] at hj
        simp [List.get?] at hj
        exact hnc hj.symm
      refine ih ?_ ?_
      · rw [List.get?_append hjcs] at hj
        exact hj
      · intro k hk hgk
        by_cases hkcs : k < cs.length
        · exact hlast k hk (by rw [List.get?_append hkcs]; exact hgk)
        · exact absurd (List.get?_eq_some.mp hgk).1 (by simpa using hkcs)

theorem buildColumnMap_nodup (cs : List String) (nm : String) (j : Nat)
    (hnd : cs.Nodup) (hj : cs.get? j = some nm) :
    buildColumnMap cs nm = some j := by
  refine buildColumnMap_last cs nm j hj ?_
  intro k hk hgk
  have hjk : j ≠ k := Nat.ne_of_lt hk
  have hjm : j < cs.length := (List.get?_eq_some.mp hj).1
  have hkm : k < cs.length := (List.get?_eq_some.mp hgk).1
  have : cs.get ⟨j, hjm⟩ = cs.get ⟨k, hkm⟩ := by
    have h1 := List.get?_eq_get hjm
    have h2 := List.get?_eq_get hkm
    rw [h1] at hj
    rw [h2] at hgk
    simp only [Option.some.injEq] at hj hgk
    rw [hj, hgk]
  exact hjk (Fin.mk.injEq .. ▸ (List.Nodup.get_inj_iff hnd).mp this)

/-! Helper lemmas about the generated per-row decoding. -/

theorem except_bind_ok {α β : Type} (a : α) (f : α → Except Error β) :
    (do
      let x ← (Except.ok a : Except Error α)
      f x) = f a :=
  rfl

theorem except_bind_error {α β : Type} (e : Error) (f : α → Except Error β) :
    (do
      let x ← (Except.error e : Except Error α)
      f x) = Except.error e :=
  rfl

theorem decodeField_found (cm : String → Option Nat) (row : Value)
    (f : FieldInfo) (idx : Nat) (h : cm f.column_name = some idx) :
    decodeField cm row f = (do
      let cell ← get_cell row idx
      from_toon_value f.ty cell) := by
  unfold decodeField
  cases hd : f.default <;> simp [h]

theorem decodeRowFields_encoded (cm : String → Option Nat) (row : Value)
    (S : Schema) : ∀ (r : Record) (pos : Nat → Nat),
      S.length = r.length →
      (∀ k (hk : k < S.length) (hr : k < r.length),
          cm ((S.get ⟨k, hk⟩).column_name) = some (pos k) ∧
          get_cell row (pos k) = .ok (to_toon_value (r.get ⟨k, hr⟩)) ∧
          hasFTy (r.get ⟨k, hr⟩) ((S.get ⟨k, hk⟩).ty) = true) →
      decodeRowFields S cm row = .ok r := by
  induction S with
  | nil =>
    intro r pos hlen _
    cases r with
    | nil => rfl
    | cons v r' => simp at hlen
  | cons f S' ih =>
    intro r pos hlen hk
    cases r with
    | nil => simp at hlen
    | cons v r' =>
      obtain ⟨hcm0, hcell0, hty0⟩ := hk 0 (by simp) (by simp)
      have hcm : cm f.column_name = some (pos 0) := hcm0
      have hcell : get_cell row (pos 0) = .ok (to_toon_value v) := hcell0
      have hty : hasFTy v f.ty = true := hty0
      have htail : ∀ k (hks : k < S'.length) (hkr : k < r'.length),
          cm ((S'.get ⟨k, hks⟩).column_name) = some (pos (k + 1)) ∧
          get_cell row (pos (k + 1)) = .ok (to_toon_value (r'.get ⟨k, hkr⟩)) ∧
          hasFTy (r'.get ⟨k, hkr⟩) ((S'.get ⟨k, hks⟩).ty) = true :=
        fun k hks hkr =>
          hk (k + 1) (by simpa using hks) (by simpa using hkr)
      have hrest := ih r' (fun k => pos (k + 1)) (by simpa using hlen) htail
      simp only [decodeRowFields]
      rw [decodeField_found cm row f (pos 0) hcm, hcell, except_bind_ok,
        from_to_value f.ty v hty, except_bind_ok, hrest, except_bind_ok]

theorem decodeRows_encoded (S : Schema) (cm : String → Option Nat) :
    ∀ rows : List Record,
      (∀ r ∈ rows,
        decodeRowFields S cm (Value.array (r.map to_toon_value)) = .ok r) →
      decodeRows S cm (rows.map fun r => Value.array (r.map to_toon_value)) =
        .ok rows := by
  intro rows h
  induction rows with
  | nil => rfl
  | cons r rest ih =>
    simp only [List.map_cons, decodeRows]
    rw [h r (by simp), except_bind_ok,
      ih fun r' hr' => h r' (by simp [hr']), except_bind_ok]

theorem roundtrip_of_nodup (S : Schema) (rs : List Record)
    (hnd : (schemaColumns S).Nodup)
    (hwt : ∀ r ∈ rs, wellTypedRecord S r = true) :
    from_toon_table S (to_toon_table S rs) = .ok rs := by
  have hcols := extract_columns_encode S rs
  have hrows := extract_rows_encode S rs
  rw [from_toon_table, hcols, except_bind_ok, hrows, except_bind_ok]
  refine decodeRows_encoded S _ rs ?_
  intro r hr
  have hw := hwt r hr
  simp only [wellTypedRecord, Bool.and_eq_true, decide_eq_true_eq,
    List.all_eq_true] at hw
  obtain ⟨hlen, hall⟩ := hw
  refine decodeRowFields_encoded _ _ S r (fun k => k) hlen ?_
  intro k hk hr'
  refine ⟨?_, ?_, ?_⟩
  · refine buildColumnMap_nodup _ _ k hnd ?_
    show (S.map (·.column_name)).get? k = _
    rw [List.get?_map, List.get?_eq_get hk]
    rfl
  · simp only [get_cell]
    rw [List.get?_map, List.get?_eq_get hr']
    rfl
  · have hkz : k < (S.zip r).length := by
      rw [List.length_zip]
      omega
    have hmem := List.get_mem (S.zip r) k hkz
    have := hall _ hmem
    rwa [List.get_zip] at this

/-! Helper lemmas about the descriptor sort. -/

theorem fieldLe_iff (a b : FieldInfo) :
    fieldLe a b = true ↔ fieldCmp a b ≠ Ordering.gt := by
  unfold fieldLe
  cases h : fieldCmp a b <;> decide

theorem fieldCmp_eq (a b : FieldInfo) :
    fieldCmp a b =
      match a.order, b.order with
      | some x, some y => compare x y
      | some _, none => .lt
      | none, some _ => .gt
      | none, none => .eq := rfl

theorem fieldLe_total (a b : FieldInfo) : fieldLe a b = true ∨ fieldLe b a = true := by
  rw [fieldLe_iff, fieldLe_iff, fieldCmp_eq, fieldCmp_eq]
  rcases a.order with _ | x <;> rcases b.order with _ | y <;> simp <;>
    rw [Nat.compare_eq_gt, Nat.compare_eq_gt] <;> omega

theorem fieldLe_of_not_fieldLe {a b : FieldInfo} (h : ¬ fieldLe a b = true) :
    fieldLe b a = true :=
  (fieldLe_total a b).resolve_left h

theorem fieldLe_trans {a b c : FieldInfo} (hab : fieldLe a b = true)
    (hbc : fieldLe b c = true) : fieldLe a c = true := by
  rw [fieldLe_iff, fieldCmp_eq] at hab hbc ⊢
  rcases ha : a.order with _ | x <;> rcases hb : b.order with _ | y <;>
    rcases hc : c.order with _ | z <;> simp_all [Nat.compare_eq_gt] <;> omega

theorem fieldLe_spec {a b : FieldInfo} (h : fieldLe a b = true) :
    (a.order = none → b.order = none) ∧
    (∀ x y, a.order = some x → b.order = some y → x ≤ y) := by
  rw [fieldLe_iff, fieldCmp_eq] at h
  rcases ha : a.order with _ | x <;> rcases hb : b.order with _ | y <;>
    simp_all [Nat.compare_eq_gt]

theorem mem_insertField {x a : FieldInfo} {l : List FieldInfo} :
    x ∈ insertField a l ↔ x = a ∨ x ∈ l := by
  induction l with
  | nil => simp [insertField]
  | cons b rest ih =>
    simp only [insertField]
    by_cases hab : fieldLe a b = true
    · rw [if_pos hab]
      simp [or_comm, or_assoc, or_left_comm]
    · rw [if_neg hab]
      simp [ih]
      tauto

theorem pairwise_insertField (a : FieldInfo) {l : List FieldInfo}
    (hl : l.Pairwise fun x y => fieldLe x y = true) :
    (insertField a l).Pairwise fun x y => fieldLe x y = true := by
  induction l with
  | nil => simp [insertField]
  | cons b rest ih =>
    rw [List.pairwise_cons] at hl
    obtain ⟨hb, hrest⟩ := hl
    simp only [insertField]
    by_cases hab : fieldLe a b = true
    · rw [if_pos hab]
      refine List.Pairwise.cons ?_ (List.Pairwise.cons hb hrest)
      intro x hx
      rcases List.mem_cons.mp hx with rfl | hx
      · exact hab
      · exact fieldLe_trans hab (hb x hx)
    · rw [if_neg hab]
      refine List.Pairwise.cons ?_ (ih hrest)
      intro x hx
      rcases mem_insertField.mp hx with rfl | hx
      · exact fieldLe_of_not_fieldLe hab
      · exact hb x hx

theorem pairwise_sortFieldInfos (l : List FieldInfo) :
    (sortFieldInfos l).Pairwise fun x y => fieldLe x y = true := by
  induction l with
  | nil => exact List.Pairwise.nil
  | cons a rest ih => exact pairwise_insertField a ih

theorem filter_insertField_pos (p : FieldInfo → Bool) (a : FieldInfo)
    (l : List FieldInfo) (hpa : p a = true)
    (hcoh : ∀ x, p x = true → fieldLe a x = true) :
    (insertField a l).filter p = a :: l.filter p := by
  induction l with
  | nil => simp [insertField, hpa]
  | cons b rest ih =>
    simp only [insertField]
    by_cases hab : fieldLe a b = true
    · rw [if_pos hab]
      simp [List.filter_cons, hpa]
    · rw [if_neg hab]
      have hpb : p b = false := by
        by_contra hpb'
        exact hab (hcoh b (by simpa using hpb'))
      simp [List.filter_cons, hpb, ih]

theorem filter_insertField_neg (p : FieldInfo → Bool) (a : FieldInfo)
    (l : List FieldInfo) (hpa : p a = false) :
    (insertField a l).filter p = l.filter p := by
  induction l with
  | nil => simp [insertField, hpa]
  | cons b rest ih =>
    simp only [insertField]
    by_cases hab : fieldLe a b = true
    · rw [if_pos hab]
      simp [List.filter_cons, hpa]
    · rw [if_neg hab]
      simp [List.filter_cons, ih]

theorem filter_sortFieldInfos (p : FieldInfo → Bool)
    (hcoh : ∀ x y, p x = true → p y = true → fieldLe x y = true)
    (l : List FieldInfo) :
    (sortFieldInfos l).filter p = l.filter p := by
  induction l with
  | nil => rfl
  | cons a rest ih =>
    simp only [sortFieldInfos]
    by_cases hpa : p a = true
    · rw [filter_insertField_pos p a _ hpa (fun x hx => hcoh a x hpa hx), ih,
        List.filter_cons, if_pos hpa]
    · rw [filter_insertField_neg p a _ (by simpa using hpa), ih,
        List.filter_cons, if_neg hpa]

theorem orderNone_coherent :
    ∀ x y : FieldInfo, x.order.isNone = true → y.order.isNone = true →
      fieldLe x y = true := by
  intro x y hx hy
  simp only [Option.isNone_iff_eq_none] at hx hy
  rw [fieldLe_iff, fieldCmp_eq, hx, hy]
  decide

theorem orderSome_coherent (v : Nat) :
    ∀ x y : FieldInfo, (x.order == some v) = true → (y.order == some v) = true →
      fieldLe x y = true := by
  intro x y hx hy
  simp only [beq_iff_eq] at hx hy
  rw [fieldLe_iff, fieldCmp_eq, hx, hy]
  simp [Nat.compare_eq_gt]

/-! The claims. -/

/-- C1 (counterexample): the round-trip claim fails as stated.  The derive
accepts a record type whose two fields are renamed to the same column "x";
encoding `[[1, 2]]` over that schema and decoding it back yields `[[2, 2]]`,
because the generated lookup resolves "x" to the later column index for both
fields — although no field relies on default-on-missing. -/
theorem claim1_roundtrip_counterexample :
    from_toon_table
        [{ name := "a", ty := .base .i64, column_name := "x",
           default := false, order := none },
         { name := "b", ty := .base .i64, column_name := "x",
           default := false, order := none }]
        (to_toon_table
          [{ name := "a", ty := .base .i64, column_name := "x",
             default := false, order := none },
           { name := "b", ty := .base .i64, column_name := "x",
             default := false, order := none }]
          [[FVal.base (BVal.int 1), FVal.base (BVal.int 2)]]) ≠
      Except.ok [[FVal.base (BVal.int 1), FVal.base (BVal.int 2)]] := by
  intro h
  have h2 : (Except.ok [[FVal.base (BVal.int 2), FVal.base (BVal.int 2)]] :
      Except Error (List Record)) =
      Except.ok [[FVal.base (BVal.int 1), FVal.base (BVal.int 2)]] := h
  simp at h2

/-- C1 (amended): for every record type implementing the table codec whose
schema column names are pairwise distinct, and every well-typed record
sequence in which no field relies on default-on-missing, decoding the
encoding returns the original sequence.  (The theorem needs no
default-related hypothesis at all: encode emits every column, so the
default branch is never taken.) -/
theorem claim1_roundtrip (S : Schema) (rs : List Record)
    (hnd : (schemaColumns S).Nodup)
    (hwt : ∀ r ∈ rs, wellTypedRecord S r = true) :
    from_toon_table S (to_toon_table S rs) = .ok rs :=
  roundtrip_of_nodup S rs hnd hwt

/-- Witness for C1 at a two-column schema and one record. -/
theorem claim1_roundtrip_witness :
    from_toon_table
        [{ name := "id", ty := .base .u64, column_name := "id",
           default := false, order := none },
         { name := "nm", ty := .base .str, column_name := "nm",
           default := false, order := none }]
        (to_toon_table
          [{ name := "id", ty := .base .u64, column_name := "id",
             default := false, order := none },
           { name := "nm", ty := .base .str, column_name := "nm",
             default := false, order := none }]
          [[FVal.base (BVal.uint 1), FVal.base (BVal.str "Alice")]]) =
      Except.ok [[FVal.base (BVal.uint 1), FVal.base (BVal.str "Alice")]] :=
  claim1_roundtrip
    [{ name := "id", ty := .base .u64, column_name := "id",
       default := false, order := none },
     { name := "nm", ty := .base .str, column_name := "nm",
       default := false, order := none }]
    [[FVal.base (BVal.uint 1), FVal.base (BVal.str "Alice")]]
    (by decide) (by decide)

/-- C2: during decode, a schema column whose name is not among the table's
columns is assigned the field type's default value when its default flag is
set (with no error, for any row), and otherwise fails with `MissingColumn`
carrying that column's name. -/
theorem claim2_default_fallback (columns : List String) (row : Value)
    (f : FieldInfo) (h : f.column_name ∉ columns) :
    (f.default = true →
      decodeField (buildColumnMap columns) row f = .ok (defaultFVal f.ty)) ∧
    (f.default = false →
      decodeField (buildColumnMap columns) row f =
        .error (.missingColumn f.column_name)) := by
  have hnone := buildColumnMap_not_mem columns f.column_name h
  constructor <;> intro hd <;> simp [decodeField, hd, hnone]

/-- Witness for C2: a default-flagged string column missing from the table
decodes to the empty string, and the same column without the flag fails. -/
theorem claim2_default_fallback_witness :
    decodeField (buildColumnMap ["other"]) Value.null
        { name := "cat", ty := .base .str, column_name := "category",
          default := true, order := none } =
      .ok (defaultFVal (.base .str)) ∧
    decodeField (buildColumnMap ["other"]) Value.null
        { name := "cat", ty := .base .str, column_name := "category",
          default := false, order := none } =
      .error (.missingColumn "category") :=
  ⟨(claim2_default_fallback ["other"] Value.null
      { name := "cat", ty := .base .str, column_name := "category",
        default := true, order := none } (by decide)).1 rfl,
   (claim2_default_fallback ["other"] Value.null
      { name := "cat", ty := .base .str, column_name := "category",
        default := false, order := none } (by decide)).2 rfl⟩

/-- C3: when the table's columns contain the same name at indices `i < j`
and `j` is its last occurrence, the generated lookup maps that name to `j`
(the later insert overwrote the earlier one), and every schema column
bearing that name decodes from cell `j` of each row. -/
theorem claim3_last_wins (cols : List String) (nm : String) (i j : Nat)
    (hij : i < j) (hi : cols.get? i = some nm) (hj : cols.get? j = some nm)
    (hlast : ∀ k, j < k → cols.get? k ≠ some nm) :
    buildColumnMap cols nm = some j ∧
    ∀ f : FieldInfo, f.column_name = nm → ∀ row : Value,
      decodeField (buildColumnMap cols) row f =
        (do
          let cell ← get_cell row j
          from_toon_value f.ty cell) := by
  have hb := buildColumnMap_last cols nm j hj hlast
  refine ⟨hb, ?_⟩
  intro f hf row
  exact decodeField_found _ row f j (by rw [hf]; exact hb)

/-- Witness for C3: in columns `["x", "y", "x"]` the name "x" resolves to
index 2, and a field named "x" reads cell 2. -/
theorem claim3_last_wins_witness :
    buildColumnMap ["x", "y", "x"] "x" = some 2 ∧
    decodeField (buildColumnMap ["x", "y", "x"])
        (Value.array [Value.str "a", Value.str "b", Value.str "c"])
        { name := "f", ty := .base .str, column_name := "x",
          default := false, order := none } =
      .ok (FVal.base (BVal.str "c")) := by
  have hx := claim3_last_wins ["x", "y", "x"] "x" 0 2 (by decide) rfl rfl
    (by
      intro k hk
      rw [List.get?_eq_none.mpr (by simpa using hk)]
      simp)
  refine ⟨hx.1, ?_⟩
  rw [hx.2
    { name := "f", ty := .base .str, column_name := "x",
      default := false, order := none } rfl
    (Value.array [Value.str "a", Value.str "b", Value.str "c"])]
  rfl

/-- C4: schema resolution sorts the descriptors stably: any descriptor with
an explicit order precedes every descriptor without one, explicit orders are
ascending, and within each class (no order, or one fixed order value) the
declaration order of the non-skipped fields is preserved. -/
theorem claim4_sort_order (fields : List (String × FTy × FieldAttrs)) :
    (∀ (i j : Nat) (a b : FieldInfo), i < j →
      (resolveSchema fields).get? i = some a →
      (resolveSchema fields).get? j = some b →
      (a.order = none → b.order = none) ∧
      (∀ x y, a.order = some x → b.order = some y → x ≤ y)) ∧
    (resolveSchema fields).filter (fun f => f.order.isNone) =
      (mkFieldInfos fields).filter (fun f => f.order.isNone) ∧
    (∀ v : Nat, (resolveSchema fields).filter (fun f => f.order == some v) =
      (mkFieldInfos fields).filter (fun f => f.order == some v)) := by
  refine ⟨?_, ?_, ?_⟩
  · intro i j a b hij hia hjb
    have hp := pairwise_sortFieldInfos (mkFieldInfos fields)
    rw [List.pairwise_iff_get] at hp
    obtain ⟨hil, hig⟩ := List.get?_eq_some.mp hia
    obtain ⟨hjl, hjg⟩ := List.get?_eq_some.mp hjb
    have hig' : (sortFieldInfos (mkFieldInfos fields)).get ⟨i, hil⟩ = a := hig
    have hjg' : (sortFieldInfos (mkFieldInfos fields)).get ⟨j, hjl⟩ = b := hjg
    have hle := hp ⟨i, hil⟩ ⟨j, hjl⟩ hij
    rw [hig', hjg'] at hle
    exact fieldLe_spec hle
  · exact filter_sortFieldInfos _ orderNone_coherent _
  · intro v
    exact filter_sortFieldInfos _ (orderSome_coherent v) _

/-- Witness for C4: with field "a" declared first and unordered, and field
"b" declared second with explicit order 0, resolution places "b" first —
and the instantiated pair properties hold for the two resolved descriptors. -/
theorem claim4_sort_order_witness :
    (resolveSchema
        [("a", .base .str, { rename := none, skip := false,
                             default := false, order := none }),
         ("b", .base .str, { rename := none, skip := false,
                             default := false, order := some 0 })]).get? 0 =
      some { name := "b", ty := .base .str, column_name := "b",
             default := false, order := some 0 } ∧
    (({ name := "b", ty := .base .str, column_name := "b",
        default := false, order := some 0 } : FieldInfo).order = none →
      ({ name := "a", ty := .base .str, column_name := "a",
         default := false, order := none } : FieldInfo).order = none) := by
  refine ⟨by decide, ?_⟩
  exact ((claim4_sort_order
    [("a", .base .str, { rename := none, skip := false,
                         default := false, order := none }),
     ("b", .base .str, { rename := none, skip := false,
                         default := false, order := some 0 })]).1
    0 1 _ _ (by decide) (by decide) (by decide)).1

/-- C5: encoding the empty record sequence yields a table whose `rows` key is
an empty Array while `columns` is the full schema column-name list (encode
never fails, being a total function), and decoding that value yields the
empty record sequence. -/
theorem claim5_empty_table (S : Schema) :
    to_toon_table S [] =
      Value.object
        [("columns", Value.array ((schemaColumns S).map Value.str)),
         ("rows", Value.array [])] ∧
    from_toon_table S (to_toon_table S []) = .ok [] := by
  constructor
  · simpa using to_toon_table_eq S []
  · rw [from_toon_table, extract_columns_encode S [], except_bind_ok,
      extract_rows_encode S [], List.map_nil, except_bind_ok]
    rfl

/-- C6: during decode, fetching cell `i` from a row that is an Array of
length `len ≤ i` fails with `ColumnOutOfBounds{index: i, len}`, and fetching
any cell from a row that is not an Array fails with `InvalidTable`. -/
theorem claim6_cell_bounds :
    (∀ (arr : List Value) (i : Nat), arr.length ≤ i →
      get_cell (Value.array arr) i = .error (.columnOutOfBounds i arr.length)) ∧
    (∀ (v : Value) (i : Nat), (∀ items, v ≠ Value.array items) →
      get_cell v i = .error (.invalidTable "row must be an array")) := by
  constructor
  · intro arr i h
    simp [get_cell, List.get?_eq_none.mpr h, List.getElem?_eq_none h]
  · intro v i h
    cases v with
    | array items => exact absurd rfl (h items)
    | _ => rfl

/-- Witness for C6 at concrete inputs: the empty row with index 0, and a
non-array row. -/
theorem claim6_cell_bounds_witness :
    get_cell (Value.array []) 0 = .error (.columnOutOfBounds 0 0) ∧
    get_cell Value.null 0 = .error (.invalidTable "row must be an array") :=
  ⟨claim6_cell_bounds.1 [] 0 (by decide),
   claim6_cell_bounds.2 Value.null 0 (fun items h => Value.noConfusion h)⟩

/-- C7: `get_row` first fully decodes the table; on success it returns the
record at the index, or `RowOutOfBounds{index, len}` with the true decoded
length when the index is past the end; on decode failure it returns the
decode error. -/
theorem claim7_get_row (S : Schema) (v : Value) (i : Nat) :
    (∀ rs, from_toon_table S v = .ok rs →
      (∀ h : i < rs.length, get_row S v i = .ok (rs.get ⟨i, h⟩)) ∧
      (rs.length ≤ i → get_row S v i = .error (.rowOutOfBounds i rs.length))) ∧
    (∀ e, from_toon_table S v = .error e → get_row S v i = .error e) := by
  constructor
  · intro rs hok
    constructor
    · intro h
      rw [get_row, hok, except_bind_ok, List.get?_eq_get h]
    · intro h
      rw [get_row, hok, except_bind_ok, List.get?_eq_none.mpr h]
  · intro e herr
    rw [get_row, herr, except_bind_error]

/-- Witness for C7 at a concrete table with two rows over the empty schema:
row 0 is returned, row 5 is out of bounds with the decoded length 2. -/
theorem claim7_get_row_witness :
    get_row [] (to_toon_table [] [[], []]) 0 = .ok [] ∧
    get_row [] (to_toon_table [] [[], []]) 5 = .error (.rowOutOfBounds 5 2) :=
  ⟨((claim7_get_row [] (to_toon_table [] [[], []]) 0).1 [[], []] rfl).1 (by decide),
   ((claim7_get_row [] (to_toon_table [] [[], []]) 5).1 [[], []] rfl).2 (by decide)⟩

/-- C8: integer reads require a Number cell exactly convertible to the
target width.  An i64 representation reads as i64 directly; a u64
representation reads as i64 exactly when it fits below `2^63`, otherwise
`ConversionError`; a u64 representation reads as u64 directly; a
non-negative i64 representation reads as u64, a negative one is
`ConversionError`; a non-Number cell is `InvalidType` for both targets. -/
theorem claim8_integer_reads :
    (∀ i : Int, fromBase .i64 (.number (.i64 i)) = .ok (.int i)) ∧
    (∀ n : Nat, (n : Int) ≤ i64Max →
      fromBase .i64 (.number (.u64 n)) = .ok (.int (n : Int))) ∧
    (∀ n : Nat, i64Max < (n : Int) →
      fromBase .i64 (.number (.u64 n)) =
        .error (.conversionError "number is not an i64")) ∧
    (∀ v : Value, (∀ n, v ≠ .number n) →
      fromBase .i64 v = .error (.invalidType "i64" v)) ∧
    (∀ n : Nat, fromBase .u64 (.number (.u64 n)) = .ok (.uint n)) ∧
    (∀ i : Int, 0 ≤ i → fromBase .u64 (.number (.i64 i)) = .ok (.uint i.toNat)) ∧
    (∀ i : Int, i < 0 →
      fromBase .u64 (.number (.i64 i)) =
        .error (.conversionError "number is not a u64")) ∧
    (∀ v : Value, (∀ n, v ≠ .number n) →
      fromBase .u64 v = .error (.invalidType "u64" v)) := by
  refine ⟨fun i => rfl, ?_, ?_, ?_, fun n => rfl, ?_, ?_, ?_⟩
  · intro n h
    simp [fromBase, Number.as_i64, h]
  · intro n h
    simp [fromBase, Number.as_i64, not_le.mpr h]
  · intro v h
    cases v with
    | number n => exact absurd rfl (h n)
    | _ => rfl
  · intro i h
    simp [fromBase, Number.as_u64, h]
  · intro i h
    simp [fromBase, Number.as_u64, not_le.mpr h]
  · intro v h
    cases v with
    | number n => exact absurd rfl (h n)
    | _ => rfl

/-- Witness for C8 at concrete inputs: `2^63` does not read as i64, `-1`
does not read as u64, a string cell is `InvalidType` for i64. -/
theorem claim8_integer_reads_witness :
    fromBase .i64 (.number (.u64 (2 ^ 63))) =
      .error (.conversionError "number is not an i64") ∧
    fromBase .u64 (.number (.i64 (-1))) =
      .error (.conversionError "number is not a u64") ∧
    fromBase .i64 (.str "x") = .error (.invalidType "i64" (.str "x")) :=
  ⟨claim8_integer_reads.2.2.1 (2 ^ 63) (by decide),
   claim8_integer_reads.2.2.2.2.2.2.1 (-1) (by decide),
   claim8_integer_reads.2.2.2.1 (.str "x") (fun n h => Value.noConfusion h)⟩

/-- C9: string reads accept a String cell (returning its contents) and a
Null cell (returning the empty string); every other variant fails with
`InvalidType` whose expected type is "string". -/
theorem claim9_string_reads :
    (∀ s, fromBase .str (.str s) = .ok (.str s)) ∧
    fromBase .str .null = .ok (.str "") ∧
    (∀ v : Value, (∀ s, v ≠ .str s) → v ≠ .null →
      fromBase .str v = .error (.invalidType "string" v)) := by
  refine ⟨fun s => rfl, rfl, ?_⟩
  intro v hs hn
  cases v with
  | str s => exact absurd rfl (hs s)
  | null => exact absurd rfl hn
  | _ => rfl

/-- Witness for C9 at a concrete non-string, non-null cell. -/
theorem claim9_string_reads_witness :
    fromBase .str (.bool true) = .error (.invalidType "string" (.bool true)) :=
  claim9_string_reads.2.2 (.bool true) (fun s h => Value.noConfusion h)
    (fun h => Value.noConfusion h)

/-- C10: decoding a table whose `rows` key is an empty Array succeeds with
the empty record sequence regardless of the schema — in particular even when
the table's `columns` omit required (non-default) schema columns, because
`MissingColumn` is only raised while processing an individual row. -/
theorem claim10_zero_rows (S : Schema) (v : Value) (cols : List String)
    (hc : extract_columns v = .ok cols) (hr : extract_rows v = .ok []) :
    from_toon_table S v = .ok [] := by
  rw [from_toon_table, hc, except_bind_ok, hr, except_bind_ok]
  rfl

/-- Witness for C10: a table with zero rows whose columns omit the required
column "missing" of a one-column schema still decodes to the empty sequence. -/
theorem claim10_zero_rows_witness :
    from_toon_table
      [{ name := "m", ty := .base .i64, column_name := "missing",
         default := false, order := none }]
      (Value.object
        [("columns", Value.array [Value.str "other"]),
         ("rows", Value.array [])]) = .ok [] :=
  claim10_zero_rows
    [{ name := "m", ty := .base .i64, column_name := "missing",
       default := false, order := none }]
    (Value.object
      [("columns", Value.array [Value.str "other"]),
       ("rows", Value.array [])])
    ["other"] rfl rfl

end Toon
